import Mathlib

/-!
Verification of the GAIL agent (`algorithms/gail_agent.py`) and its
distribution library (`rolf/networks/distributions.py`).

Floating-point tensor arithmetic is modelled over `ℝ`; a NumPy operation
whose result is non-finite (NaN from a division by a zero standard
deviation) is modelled by `Option`, with `none` standing for the
non-finite outcome.  Rollout fields are lists of reals, batched tensors
are lists, and external collaborators (networks, optimizers, the
observation normalizer) are abstract function parameters, matching the
spec's external-interface boundary.
-/

namespace RobotLearning

noncomputable section

/-- Mean of a list of reals, as `numpy.mean` (junk value `0` on `[]`,
where NumPy would give NaN; that case is only reached through
`normalizeAdv`, which already returns `none` there). -/
def listMean (xs : List ℝ) : ℝ := xs.sum / xs.length

/-- Population variance of a list of reals, as `numpy.var` (ddof = 0). -/
def listVar (xs : List ℝ) : ℝ :=
  ((xs.map fun x => (x - listMean xs) ^ 2).sum) / xs.length

/-- Population standard deviation of a list of reals, as `numpy.std`. -/
def listStd (xs : List ℝ) : ℝ := Real.sqrt (listVar xs)

/-- The backward GAE recursion of `GAILAgent._compute_gae`
(gail_agent.py lines 122-137).  The source iterates `t` from `T-1` down
to `0` with accumulator `lastgaelam` (initially `0`), setting
`adv[t] = lastgaelam = delta + γ·λ·nonterminal·lastgaelam` where
`delta = rew[t] + γ·vpred[t+1]·nonterminal - vpred[t]` and
`nonterminal = 1 - done[t]`.  Here the list of advantages is built head
first: the entry for step `t` uses the already-computed advantage of
step `t+1` (`rest.headD 0`), which is exactly the accumulator value, and
`0` when `t = T-1`. -/
def gaeAdv (γ lam : ℝ) : List ℝ → List ℝ → List ℝ → List ℝ
  | r :: rews, d :: dones, v :: vs =>
    let rest := gaeAdv γ lam rews dones vs
    let nonterminal : ℝ := 1 - d
    let delta : ℝ := r + γ * vs.headD 0 * nonterminal - v
    (delta + γ * lam * nonterminal * rest.headD 0) :: rest
  | _, _, _ => []

/-- The one-step TD error `delta` of the GAE loop, at index `t`. -/
def gaeDelta (γ : ℝ) (rew done vpred : List ℝ) (t : ℕ) : ℝ :=
  rew.getD t 0 + γ * vpred.getD (t + 1) 0 * (1 - done.getD t 0) - vpred.getD t 0

/-- Advantage standardization `(adv - adv.mean()) / adv.std()`
(gail_agent.py line 145).  When `adv.std()` is `0` (constant or empty
advantage sequence) NumPy's division yields NaN entries; that non-finite
outcome is modelled as `none`. -/
def normalizeAdv (adv : List ℝ) : Option (List ℝ) :=
  if listStd adv = 0 then none
  else some (adv.map fun a => (a - listMean adv) / listStd adv)

/-- Model of `GAILAgent._compute_gae`, given the critic's value predictions
`vpred` (length `T+1`, bootstrap for the final state) as input: computes
the advantages by the backward recursion, the unnormalized returns
`ret = adv + vpred[:-1]`, and stores the standardized advantages and the
raw returns.  The first component is the stored advantage sequence
(`none` for the NaN outcome of a zero standard deviation), the second
the stored returns. -/
def compute_gae (γ lam : ℝ) (rew done vpred : List ℝ) :
    Option (List ℝ) × List ℝ :=
  let adv := gaeAdv γ lam rew done vpred
  let ret := List.zipWith (· + ·) adv vpred
  (normalizeAdv adv, ret)

/-- Model of `torch.sigmoid`. -/
def sigmoid (x : ℝ) : ℝ := 1 / (1 + Real.exp (-x))

/-- The `eps = 1e-20` constant of `predict_reward`. -/
def gailEps : ℝ := 1e-20

/-- The configuration flags consumed by `predict_reward`. -/
structure DiscrConfig where
  gail_vanilla_reward : Bool
  gail_no_action : Bool

/-- The logistic transform applied to a discriminator logit inside
`predict_reward` (gail_agent.py lines 95-100): `s = sigmoid(logit)`;
vanilla path `-log(1 - s + eps)`, otherwise
`log(s + eps) - log(1 - s + eps)`. -/
def gailRewardOfLogit (cfg : DiscrConfig) (logit : ℝ) : ℝ :=
  let s := sigmoid logit
  if cfg.gail_vanilla_reward then -Real.log (1 - s + gailEps)
  else Real.log (s + gailEps) - Real.log (1 - s + gailEps)

/-- The vanilla-configuration reward as a function of the logit alone,
for studying its asymptotics. -/
def vanillaReward (logit : ℝ) : ℝ :=
  gailRewardOfLogit ⟨true, false⟩ logit

/-- Model of `GAILAgent.predict_reward` on a single (observation, action) pair:
normalizes the observation, discards the action when
`gail_no_action` is set, queries the discriminator for a logit, and
applies the logistic transform.  `normalize` (the stateful running
observation normalizer) and `disc` (the discriminator network) are the
external collaborators of the spec. -/
def predict_reward {O A : Type} (cfg : DiscrConfig) (normalize : O → O)
    (disc : O → Option A → ℝ) (ob : O) (ac : Option A) : ℝ :=
  let ob := normalize ob
  let ac := if cfg.gail_no_action then none else ac
  gailRewardOfLogit cfg (disc ob ac)

/-- Model of `torch.Tensor.item()`: extracts the single element of a tensor,
an error (`none`) when the tensor does not hold exactly one element. -/
def tensorItem (xs : List ℝ) : Option ℝ :=
  match xs with
  | [x] => some x
  | _ => none

/-- Model of `GAILAgent.predict_reward` on a batch of `obs.length` transitions:
the discriminator produces one logit per transition, the logistic
transform is applied elementwise, and the final `.item()` call
(gail_agent.py line 101) extracts the unique element of the resulting
reward tensor. -/
def predict_reward_batch {O A : Type} (cfg : DiscrConfig) (normalize : O → O)
    (disc : O → Option A → ℝ) (obs : List O) (acs : List A) : Option ℝ :=
  let obs := obs.map normalize
  let logits :=
    if cfg.gail_no_action then obs.map fun o => disc o none
    else (obs.zip acs).map fun p => disc p.1 (some p.2)
  tensorItem (logits.map (gailRewardOfLogit cfg))

/-- Model of `torch.clamp(x, lo, hi)`. -/
def torchClamp (x lo hi : ℝ) : ℝ := min (max x lo) hi

/-- The parameters of the base Normal held by `TanhNormal_`
(distributions.py lines 111-126): `TanhNormal` clamps the mean to
`[-9, 9]` before building it (line 131). -/
structure TanhNormalBase where
  loc : ℝ
  scale : ℝ

/-- Constructor of `TanhNormal`: `TanhNormal_(torch.clamp(mean, -9.0, 9.0), std)`. -/
def TanhNormal.make (mean std : ℝ) : TanhNormalBase :=
  ⟨torchClamp mean (-9) 9, std⟩

/-- The `mean` property of `TanhNormal_`: `self.base_dist.mean.tanh()`. -/
def TanhNormalBase.meanValue (d : TanhNormalBase) : ℝ := Real.tanh d.loc

/-- Model of `TanhNormal.mode()`: returns `self.mean`, which is the wrapped
`TanhNormal_` distribution's `mean` property. -/
def TanhNormal.mode (mean std : ℝ) : ℝ :=
  (TanhNormal.make mean std).meanValue

/-- Model of `torch.softmax` over a logits vector: the probability vector of the
base `torch.distributions.Categorical`. -/
def softmaxProbs (logits : List ℝ) : List ℝ :=
  logits.map fun l => Real.exp l / (logits.map Real.exp).sum

/-- Entropy of the base `torch.distributions.Categorical` with given
logits: `-Σ pᵢ·log pᵢ` over the softmax probabilities. -/
def categoricalBaseEntropy (logits : List ℝ) : ℝ :=
  -((softmaxProbs logits).map fun p => p * Real.log p).sum

/-- The overridden `Categorical.entropy` (distributions.py lines 47-48):
`super().entropy() * 10.0`. -/
def categoricalEntropy (logits : List ℝ) : ℝ :=
  categoricalBaseEntropy logits * 10

/-- A sub-distribution as `MixedDistribution` consumes it: a log-prob
function over values of type `V` and an entropy value (the wrapped
distributions are arbitrary in the source). -/
structure SimpleDist (V : Type) where
  logProbFn : V → ℝ
  entropyValue : ℝ

/-- Model of `MixedDistribution`: an ordered mapping from sub-action names (string
keys in the source, kept as an abstract key type `K` here) to
sub-distributions (distributions.py lines 208-234). -/
def MixedDistribution (K V : Type) := List (K × SimpleDist V)

/-- Model of `MixedDistribution.log_prob`: per-key log-probabilities of the
matching values of the value mapping `x`, stacked and summed. -/
def MixedDistribution.logProb {K V : Type} (md : MixedDistribution K V)
    (x : K → V) : ℝ :=
  (md.map fun kd => kd.2.logProbFn (x kd.1)).sum

/-- Model of `MixedDistribution.entropy`: sum of the sub-distributions' entropies. -/
def MixedDistribution.entropyTotal {K V : Type} (md : MixedDistribution K V) : ℝ :=
  (md.map fun kd => kd.2.entropyValue).sum

/-- Configuration constants consumed by `_update_policy`. -/
structure PpoConfig where
  entropy_loss_coeff : ℝ
  ppo_clip : ℝ
  value_loss_coeff : ℝ

/-- One stored transition as sampled from the replay buffer. -/
structure Transition (O A : Type) where
  ob : O
  ac : A
  ac_before_activation : A
  ret : ℝ
  adv : ℝ

/-- The mutable state of `GAILAgent` touched by `train()`: the four
networks, the replay buffer, and the three `StepLR` scheduler step
counters. -/
structure GailState (P C D O A : Type) where
  actor : P
  old_actor : P
  critic : C
  discriminator : D
  buffer : List (Transition O A)
  actor_sched : ℕ
  critic_sched : ℕ
  discriminator_sched : ℕ

/-- The external collaborators of the training loop: the observation
normalizer, the actor's `act` (log-probability and entropy of the
stored pre-activation), the critic's value head, the three Adam
optimizer steps (abstract maps from parameters and loss to new
parameters), and the discriminator update on a (policy, expert) batch
pair. `E` is the expert-batch type. -/
structure GailOps (P C D O A E : Type) where
  normalize : O → O
  act : P → O → A → ℝ × ℝ
  criticValue : C → O → ℝ
  actorOptimStep : P → ℝ → P
  criticOptimStep : C → ℝ → C
  discOptimStep : D → List (Transition O A) → E → D

/-- Model of `GAILAgent._update_policy` (gail_agent.py lines 294-365) on one
sampled batch: evaluates the stored pre-activations under the current
and the old actor, forms the importance ratios
`exp(log_pi - old_log_pi)`, the clipped surrogate actor loss plus the
entropy term, and the critic's squared-error loss against the stored
returns, then steps the actor and critic optimizers.  The old actor is
read only to produce `old_log_pi`; the `ipdb` breakpoint guards change
no state and are elided. -/
def _update_policy {P C D O A E : Type} (cfg : PpoConfig)
    (ops : GailOps P C D O A E) (batch : List (Transition O A))
    (s : GailState P C D O A) : GailState P C D O A :=
  let logPi := batch.map fun tr =>
    (ops.act s.actor (ops.normalize tr.ob) tr.ac_before_activation).1
  let ent := batch.map fun tr =>
    (ops.act s.actor (ops.normalize tr.ob) tr.ac_before_activation).2
  let oldLogPi := batch.map fun tr =>
    (ops.act s.old_actor (ops.normalize tr.ob) tr.ac_before_activation).1
  let entropy_loss := cfg.entropy_loss_coeff * listMean ent
  let ratios := List.zipWith (fun l o => Real.exp (l - o)) logPi oldLogPi
  let advs := batch.map Transition.adv
  let surr1 := List.zipWith (· * ·) ratios advs
  let surr2 := List.zipWith
    (fun r a => torchClamp r (1 - cfg.ppo_clip) (1 + cfg.ppo_clip) * a)
    ratios advs
  let actor_loss := -listMean (List.zipWith min surr1 surr2) + entropy_loss
  let value_loss := cfg.value_loss_coeff *
    listMean (batch.map fun tr =>
      (tr.ret - ops.criticValue s.critic (ops.normalize tr.ob)) ^ 2)
  { s with
    actor := ops.actorOptimStep s.actor actor_loss
    critic := ops.criticOptimStep s.critic value_loss }

/-- Model of `GAILAgent._update_discriminator`: one gradient step on the
discriminator's parameters only. -/
def _update_discriminator {P C D O A E : Type} (ops : GailOps P C D O A E)
    (pbatch : List (Transition O A)) (ebatch : E)
    (s : GailState P C D O A) : GailState P C D O A :=
  { s with discriminator := ops.discOptimStep s.discriminator pbatch ebatch }

/-- Model of `GAILAgent.train` (gail_agent.py lines 195-232): step the three
learning-rate schedulers, deep-copy the current actor into the frozen
old-actor snapshot, run the PPO policy updates on the sampled policy
batches, run the discriminator updates on the sampled
(policy, expert) batch pairs, and clear the replay buffer.  The
batches drawn by the (random, externally injected) sampler are passed
in as `pbatches` and `dbatches`. -/
def train {P C D O A E : Type} (cfg : PpoConfig) (ops : GailOps P C D O A E)
    (pbatches : List (List (Transition O A)))
    (dbatches : List (List (Transition O A) × E))
    (s : GailState P C D O A) : GailState P C D O A :=
  let s1 := { s with
    actor_sched := s.actor_sched + 1
    critic_sched := s.critic_sched + 1
    discriminator_sched := s.discriminator_sched + 1 }
  let s2 := { s1 with old_actor := s1.actor }
  let s3 := pbatches.foldl (fun st b => _update_policy cfg ops b st) s2
  let s4 := dbatches.foldl (fun st pe => _update_discriminator ops pe.1 pe.2 st) s3
  { s4 with buffer := [] }

end

/-! ## Helper lemmas -/

theorem headD_eq_getD (l : List ℝ) : l.headD 0 = l.getD 0 0 := by
  cases l <;> rfl

theorem gaeAdv_nil (γ lam : ℝ) (dones vs : List ℝ) :
    gaeAdv γ lam [] dones vs = [] := by
  cases dones <;> cases vs <;> rfl

theorem gaeAdv_cons (γ lam r d v : ℝ) (rews dones vs : List ℝ) :
    gaeAdv γ lam (r :: rews) (d :: dones) (v :: vs) =
      (r + γ * vs.headD 0 * (1 - d) - v +
        γ * lam * (1 - d) * (gaeAdv γ lam rews dones vs).headD 0) ::
      gaeAdv γ lam rews dones vs := rfl

theorem gaeDelta_cons (γ r d v : ℝ) (rews dones vs : List ℝ) (t : ℕ) :
    gaeDelta γ (r :: rews) (d :: dones) (v :: vs) (t + 1) =
      gaeDelta γ rews dones vs t := by
  simp [gaeDelta]

theorem gaeAdv_length (γ lam : ℝ) :
    ∀ (rews dones vs : List ℝ), dones.length = rews.length →
      vs.length = rews.length + 1 →
      (gaeAdv γ lam rews dones vs).length = rews.length := by
  intro rews
  induction rews with
  | nil => intro dones vs _ _; simp [gaeAdv_nil]
  | cons r rews ih =>
    intro dones vs hd hv
    cases dones with
    | nil => simp at hd
    | cons d dones =>
      cases vs with
      | nil => simp at hv
      | cons v vs =>
        rw [gaeAdv_cons, List.length_cons, List.length_cons,
          ih dones vs (by simpa using hd) (by simpa using hv)]

theorem gaeAdv_getD_rec (γ lam : ℝ) :
    ∀ (rews dones vs : List ℝ) (t : ℕ), t + 1 < rews.length →
      (gaeAdv γ lam rews dones vs).getD t 0 =
        gaeDelta γ rews dones vs t +
          γ * lam * (1 - dones.getD t 0) *
            (gaeAdv γ lam rews dones vs).getD (t + 1) 0 ∨
      dones.length ≠ rews.length ∨ vs.length ≠ rews.length + 1 := by
  intro rews
  induction rews with
  | nil => intro dones vs t ht; simp at ht
  | cons r rews ih =>
    intro dones vs t ht
    cases dones with
    | nil => right; left; simp
    | cons d dones =>
      cases vs with
      | nil => right; right; simp
      | cons v vs =>
        by_cases hd : dones.length = rews.length
        · by_cases hv : vs.length = rews.length + 1
          · left
            cases t with
            | zero =>
              rw [gaeAdv_cons]
              simp only [List.getD_cons_zero, List.getD_cons_succ]
              rw [headD_eq_getD, gaeDelta]
              simp only [List.getD_cons_zero, List.getD_cons_succ]
              rw [headD_eq_getD]
            | succ t =>
              rw [gaeAdv_cons]
              simp only [List.getD_cons_succ, gaeDelta_cons]
              rcases ih dones vs t (by simpa using ht) with h | h | h
              · exact h
              · exact absurd hd h
              · exact absurd hv h
          · right; right; simpa using hv
        · right; left; simpa using hd

theorem gaeAdv_getD_last (γ lam : ℝ) :
    ∀ (rews dones vs : List ℝ), dones.length = rews.length →
      vs.length = rews.length + 1 → 0 < rews.length →
      (gaeAdv γ lam rews dones vs).getD (rews.length - 1) 0 =
        gaeDelta γ rews dones vs (rews.length - 1) := by
  intro rews
  induction rews with
  | nil => intro _ _ _ _ h; simp at h
  | cons r rews ih =>
    intro dones vs hd hv _
    cases dones with
    | nil => simp at hd
    | cons d dones =>
      cases vs with
      | nil => simp at hv
      | cons v vs =>
        cases rews with
        | nil =>
          cases dones with
          | nil =>
            rw [gaeAdv_cons]
            simp only [List.length_cons, List.length_nil, Nat.zero_add,
              Nat.sub_self, List.getD_cons_zero]
            rw [gaeAdv_nil, gaeDelta]
            simp only [List.headD_nil, List.getD_cons_zero, List.getD_cons_succ]
            rw [headD_eq_getD]
            ring
          | cons _ _ => simp at hd
        | cons r2 rews2 =>
          have hlen : (r2 :: rews2).length - 1 + 1 = (r2 :: rews2).length := by
            simp
          rw [gaeAdv_cons]
          have : (r :: r2 :: rews2).length - 1 = ((r2 :: rews2).length - 1) + 1 := by
            simp
          rw [this, List.getD_cons_succ, gaeDelta_cons γ r d v]
          exact ih dones vs (by simpa using hd) (by simpa using hv) (by simp)

theorem zipWith_add_getD :
    ∀ (xs ys : List ℝ) (t : ℕ), t < xs.length → t < ys.length →
      (List.zipWith (· + ·) xs ys).getD t 0 = xs.getD t 0 + ys.getD t 0 := by
  intro xs
  induction xs with
  | nil => intro ys t h _; simp at h
  | cons x xs ih =>
    intro ys t hx hy
    cases ys with
    | nil => simp at hy
    | cons y ys =>
      cases t with
      | zero => simp
      | succ t =>
        simp only [List.zipWith_cons_cons, List.getD_cons_succ]
        exact ih ys t (by simpa using hx) (by simpa using hy)

/-! ## C1 -/

/-- C1: for every rollout of length `T` with `T+1` value predictions,
done flags and rewards, the pre-normalization advantage of
`_compute_gae` follows the backward recursion
`adv[t] = delta[t] + γ·λ·(1-done[t])·adv[t+1]` with
`adv[T-1] = delta[T-1]`, the stored return satisfies
`ret[t] = adv[t] + V[t]`, and in particular for `T = 1`, `rew = [r]`,
`done = [0]`, `V = [v0, v1]` the advantage is `r + γ·v1 - v0`. -/
theorem gae_backward_recursion (γ lam : ℝ) (T : ℕ) (rew done vpred : List ℝ)
    (hr : rew.length = T) (hd : done.length = T) (hv : vpred.length = T + 1) :
    (gaeAdv γ lam rew done vpred).length = T ∧
    (∀ t, t + 1 < T → (gaeAdv γ lam rew done vpred).getD t 0 =
      gaeDelta γ rew done vpred t +
        γ * lam * (1 - done.getD t 0) *
          (gaeAdv γ lam rew done vpred).getD (t + 1) 0) ∧
    (0 < T → (gaeAdv γ lam rew done vpred).getD (T - 1) 0 =
      gaeDelta γ rew done vpred (T - 1)) ∧
    (∀ t, t < T → (compute_gae γ lam rew done vpred).2.getD t 0 =
      (gaeAdv γ lam rew done vpred).getD t 0 + vpred.getD t 0) ∧
    (∀ r v0 v1 : ℝ, gaeAdv γ lam [r] [0] [v0, v1] = [r + γ * v1 - v0]) := by
  subst hr
  refine ⟨gaeAdv_length γ lam rew done vpred hd hv, ?_, ?_, ?_, ?_⟩
  · intro t ht
    rcases gaeAdv_getD_rec γ lam rew done vpred t ht with h | h | h
    · exact h
    · exact absurd hd h
    · exact absurd hv h
  · intro hT
    exact gaeAdv_getD_last γ lam rew done vpred hd hv hT
  · intro t ht
    have h2 : (compute_gae γ lam rew done vpred).2 =
        List.zipWith (· + ·) (gaeAdv γ lam rew done vpred) vpred := rfl
    rw [h2]
    exact zipWith_add_getD _ _ t
      (by rw [gaeAdv_length γ lam rew done vpred hd hv]; exact ht)
      (by omega)
  · intro r v0 v1
    rw [gaeAdv_cons, gaeAdv_nil]
    norm_num

/-- Witness for C1 at a concrete rollout of length 2. -/
theorem gae_backward_recursion_witness :
    (gaeAdv (1/2) (1/3) [1, 2] [0, 0] [1, 2, 3]).length = 2 :=
  (gae_backward_recursion (1/2) (1/3) 2 [1, 2] [0, 0] [1, 2, 3]
    rfl rfl rfl).1

/-! ## C2: zero rewards, zero dones, constant value -/

theorem replicate_headD_zero (T : ℕ) : (List.replicate T (0:ℝ)).headD 0 = 0 := by
  cases T with
  | zero => rfl
  | succ n => rw [List.replicate_succ]; rfl

theorem gaeAdv_replicate (γ lam V : ℝ) (h : γ = 1 ∨ V = 0) :
    ∀ T : ℕ, gaeAdv γ lam (List.replicate T 0) (List.replicate T 0)
      (List.replicate (T + 1) V) = List.replicate T 0 := by
  intro T
  induction T with
  | zero => simp [gaeAdv_nil]
  | succ T ih =>
    have hh : (List.replicate (T + 1) V).headD 0 = V := by
      rw [List.replicate_succ]; rfl
    rw [List.replicate_succ (n := T) (a := (0:ℝ)),
      List.replicate_succ (n := T + 1) (a := V), gaeAdv_cons, ih, hh,
      replicate_headD_zero]
    congr 1
    rcases h with h | h <;> subst h <;> ring

theorem zipWith_add_replicate (V : ℝ) :
    ∀ T : ℕ, List.zipWith (· + ·) (List.replicate T (0:ℝ))
      (List.replicate (T + 1) V) = List.replicate T V := by
  intro T
  induction T with
  | zero => simp
  | succ T ih =>
    rw [List.replicate_succ (n := T) (a := (0:ℝ)),
      List.replicate_succ (n := T + 1) (a := V), List.zipWith_cons_cons, ih,
      zero_add, List.replicate_succ (n := T) (a := V)]

theorem listStd_replicate_zero (T : ℕ) :
    listStd (List.replicate T (0:ℝ)) = 0 := by
  have hm : listMean (List.replicate T (0:ℝ)) = 0 := by
    simp [listMean, List.sum_replicate]
  have hv : listVar (List.replicate T (0:ℝ)) = 0 := by
    simp [listVar, hm, List.map_replicate, List.sum_replicate]
  rw [listStd, hv, Real.sqrt_zero]

/-- C2 (amended): for a rollout with all rewards 0, all dones 0 and a
constant value prediction `V`, when additionally `γ = 1` or `V = 0`,
the pre-normalization advantages are all 0 and the stored returns all
equal `V`; the stored advantage sequence, however, is the NaN outcome
(`none`) of the in-place standardization, because the advantage
standard deviation is 0 — not the all-zero sequence. -/
theorem gae_zero_reward_constant_value (γ lam V : ℝ) (T : ℕ)
    (h : γ = 1 ∨ V = 0) :
    gaeAdv γ lam (List.replicate T 0) (List.replicate T 0)
      (List.replicate (T + 1) V) = List.replicate T 0 ∧
    (compute_gae γ lam (List.replicate T 0) (List.replicate T 0)
      (List.replicate (T + 1) V)).2 = List.replicate T V ∧
    (compute_gae γ lam (List.replicate T 0) (List.replicate T 0)
      (List.replicate (T + 1) V)).1 = none := by
  have hadv := gaeAdv_replicate γ lam V h T
  refine ⟨hadv, ?_, ?_⟩
  · show List.zipWith (· + ·) (gaeAdv γ lam _ _ _) _ = _
    rw [hadv, zipWith_add_replicate]
  · show normalizeAdv (gaeAdv γ lam _ _ _) = none
    rw [hadv, normalizeAdv, if_pos (listStd_replicate_zero T)]

/-- C2 counterexample: at `γ = λ = 1/2` on the length-1 rollout with
reward 0, done 0 and constant value prediction `V = 3`, the stored
returns are `[3/2]`, not `[3]`, and the stored advantage sequence is
the NaN outcome `none`, not `[0]`: the claim fails as stated. -/
theorem gae_zero_reward_constant_value_cex :
    (compute_gae (1/2) (1/2) [0] [0] [3, 3]).2 = [3/2] ∧
    (3/2 : ℝ) ≠ 3 ∧
    (compute_gae (1/2) (1/2) [0] [0] [3, 3]).1 = none := by
  have hadv : gaeAdv (1/2) (1/2) [0] [0] [3, 3] = [-(3/2)] := by
    rw [gaeAdv_cons, gaeAdv_nil]
    norm_num
  refine ⟨?_, by norm_num, ?_⟩
  · show List.zipWith (· + ·) (gaeAdv (1/2) (1/2) [0] [0] [3, 3]) _ = _
    rw [hadv]
    norm_num
  · show normalizeAdv (gaeAdv (1/2) (1/2) [0] [0] [3, 3]) = none
    rw [hadv, normalizeAdv, if_pos]
    have hm : listMean [-(3/2 : ℝ)] = -(3/2) := by
      simp [listMean]
    have hv : listVar [-(3/2 : ℝ)] = 0 := by
      simp [listVar, hm]
    rw [listStd, hv, Real.sqrt_zero]

/-- Witness for C2 (amended) at `γ = 1`, `V = 5`, `T = 2`. -/
theorem gae_zero_reward_constant_value_witness :
    gaeAdv 1 (1/2) (List.replicate 2 0) (List.replicate 2 0)
      (List.replicate 3 5) = List.replicate 2 0 :=
  (gae_zero_reward_constant_value 1 (1/2) 5 2 (Or.inl rfl)).1

/-! ## C5: standardization of the advantages -/

theorem sum_map_sub_div (xs : List ℝ) (c σ : ℝ) :
    (xs.map fun a => (a - c) / σ).sum = (xs.sum - xs.length * c) / σ := by
  induction xs with
  | nil => simp
  | cons x xs ih =>
    rw [List.map_cons, List.sum_cons, ih, div_add_div_same, List.sum_cons,
      List.length_cons]
    push_cast
    ring_nf

theorem sum_map_sq_div (xs : List ℝ) (c σ : ℝ) :
    (xs.map fun a => ((a - c) / σ) ^ 2).sum =
      ((xs.map fun a => (a - c) ^ 2).sum) / σ ^ 2 := by
  induction xs with
  | nil => simp
  | cons x xs ih =>
    rw [List.map_cons, List.sum_cons, ih, List.map_cons, List.sum_cons,
      ← div_add_div_same, div_pow]

theorem listVar_nonneg (xs : List ℝ) : 0 ≤ listVar xs := by
  apply div_nonneg _ (Nat.cast_nonneg xs.length)
  apply List.sum_nonneg
  intro y hy
  obtain ⟨a, -, rfl⟩ := List.mem_map.mp hy
  positivity

theorem listStd_sq (xs : List ℝ) : listStd xs ^ 2 = listVar xs :=
  Real.sq_sqrt (listVar_nonneg xs)

theorem listVar_pos (xs : List ℝ)
    (h : ∃ x ∈ xs, ∃ y ∈ xs, x ≠ y) : 0 < listVar xs := by
  obtain ⟨x, hx, y, hy, hxy⟩ := h
  have hlen : 0 < (xs.length : ℝ) := by
    have := List.length_pos.mpr (List.ne_nil_of_mem hx)
    exact_mod_cast this
  have key : ∃ a ∈ xs, a ≠ listMean xs := by
    by_cases hxm : x = listMean xs
    · exact ⟨y, hy, by rw [← hxm]; exact fun hc => hxy hc.symm⟩
    · exact ⟨x, hx, hxm⟩
  obtain ⟨a, ha, hane⟩ := key
  apply div_pos _ hlen
  have hmem : (a - listMean xs) ^ 2 ∈ xs.map fun b => (b - listMean xs) ^ 2 :=
    List.mem_map.mpr ⟨a, ha, rfl⟩
  have hterm : 0 < (a - listMean xs) ^ 2 := by
    have : a - listMean xs ≠ 0 := sub_ne_zero.mpr hane
    positivity
  have hle : (a - listMean xs) ^ 2 ≤ (xs.map fun b => (b - listMean xs) ^ 2).sum := by
    apply List.single_le_sum _ _ hmem
    intro b hb
    obtain ⟨c, -, rfl⟩ := List.mem_map.mp hb
    positivity
  linarith

theorem listStd_pos (xs : List ℝ)
    (h : ∃ x ∈ xs, ∃ y ∈ xs, x ≠ y) : 0 < listStd xs :=
  Real.sqrt_pos.mpr (listVar_pos xs h)

theorem listMean_standardized (xs : List ℝ) (hne : xs ≠ []) :
    listMean (xs.map fun a => (a - listMean xs) / listStd xs) = 0 := by
  have hlen : (xs.length : ℝ) ≠ 0 := by
    have := List.length_pos.mpr hne
    positivity
  rw [listMean, List.length_map, sum_map_sub_div, listMean,
    mul_div_cancel₀ _ hlen, sub_self, zero_div, zero_div]

theorem listVar_standardized (xs : List ℝ)
    (h : ∃ x ∈ xs, ∃ y ∈ xs, x ≠ y) :
    listVar (xs.map fun a => (a - listMean xs) / listStd xs) = 1 := by
  have hne : xs ≠ [] := by
    obtain ⟨x, hx, -⟩ := h
    exact List.ne_nil_of_mem hx
  have hvar := listVar_pos xs h
  rw [listVar, listMean_standardized xs hne, List.length_map, List.map_map]
  have hmaps : ((fun x => (x - 0) ^ 2) ∘ fun a => (a - listMean xs) / listStd xs) =
      fun a => ((a - listMean xs) / listStd xs) ^ 2 := by
    funext a
    simp
  rw [hmaps, sum_map_sq_div, listStd_sq, listVar]
  have hn : (0:ℝ) < xs.length := by
    have := List.length_pos.mpr hne
    exact_mod_cast this
  have hS : (0:ℝ) < (xs.map fun a => (a - listMean xs) ^ 2).sum := by
    have h2 := hvar
    rw [listVar] at h2
    have h3 := mul_pos h2 hn
    rwa [div_mul_cancel₀ _ (ne_of_gt hn)] at h3
  have hS0 : (xs.map fun a => (a - listMean xs) ^ 2).sum ≠ 0 := ne_of_gt hS
  have hn0 : (xs.length : ℝ) ≠ 0 := ne_of_gt hn
  field_simp

theorem listStd_standardized (xs : List ℝ)
    (h : ∃ x ∈ xs, ∃ y ∈ xs, x ≠ y) :
    listStd (xs.map fun a => (a - listMean xs) / listStd xs) = 1 := by
  rw [listStd, listVar_standardized xs h, Real.sqrt_one]

/-- C5: for every rollout whose pre-normalization advantage sequence is
not constant (finiteness is automatic in the real-valued model), the
advantage sequence stored by `_compute_gae` has mean 0 and standard
deviation 1 exactly, while the stored returns are the unnormalized
advantage-plus-value targets `adv + vpred[:-1]`. -/
theorem gae_advantage_standardized (γ lam : ℝ) (rew done vpred : List ℝ)
    (h : ∃ x ∈ gaeAdv γ lam rew done vpred,
      ∃ y ∈ gaeAdv γ lam rew done vpred, x ≠ y) :
    ∃ na, (compute_gae γ lam rew done vpred).1 = some na ∧
      listMean na = 0 ∧ listStd na = 1 ∧
      (compute_gae γ lam rew done vpred).2 =
        List.zipWith (· + ·) (gaeAdv γ lam rew done vpred) vpred := by
  have hne : gaeAdv γ lam rew done vpred ≠ [] := by
    obtain ⟨x, hx, -⟩ := h
    exact List.ne_nil_of_mem hx
  have hstd := listStd_pos (gaeAdv γ lam rew done vpred) h
  refine ⟨(gaeAdv γ lam rew done vpred).map fun a =>
    (a - listMean (gaeAdv γ lam rew done vpred)) /
      listStd (gaeAdv γ lam rew done vpred), ?_, ?_, ?_, rfl⟩
  · show normalizeAdv (gaeAdv γ lam rew done vpred) = _
    rw [normalizeAdv, if_neg (by exact ne_of_gt hstd)]
  · exact listMean_standardized _ hne
  · exact listStd_standardized _ h

/-- Witness for C5 on a concrete length-2 rollout with a non-constant
advantage sequence. -/
theorem gae_advantage_standardized_witness :
    ∃ na, (compute_gae (1/2) (1/2) [1, 0] [0, 0] [0, 0, 0]).1 = some na ∧
      listMean na = 0 ∧ listStd na = 1 ∧
      (compute_gae (1/2) (1/2) [1, 0] [0, 0] [0, 0, 0]).2 =
        List.zipWith (· + ·) (gaeAdv (1/2) (1/2) [1, 0] [0, 0] [0, 0, 0])
          [0, 0, 0] := by
  apply gae_advantage_standardized
  have hadv : gaeAdv (1/2) (1/2) [1, 0] [0, 0] [0, 0, 0] = [1, 0] := by
    rw [gaeAdv_cons, gaeAdv_cons, gaeAdv_nil]
    norm_num
  rw [hadv]
  exact ⟨1, by simp, 0, by simp, by norm_num⟩

/-! ## C3: asymptotics of the vanilla discriminator reward -/

theorem sigmoid_pos (x : ℝ) : 0 < sigmoid x := by
  rw [sigmoid]
  positivity

theorem sigmoid_lt_one (x : ℝ) : sigmoid x < 1 := by
  rw [sigmoid, div_lt_one (by positivity)]
  linarith [Real.exp_pos (-x)]

theorem gailEps_pos : 0 < gailEps := by norm_num [gailEps]

theorem gailEps_lt_one : gailEps < 1 := by norm_num [gailEps]

theorem vanillaReward_eq (x : ℝ) :
    vanillaReward x = -Real.log (1 - sigmoid x + gailEps) := rfl

theorem vanillaReward_monotone {x y : ℝ} (h : x ≤ y) :
    vanillaReward x ≤ vanillaReward y := by
  have hs : sigmoid x ≤ sigmoid y := by
    rw [sigmoid, sigmoid]
    apply one_div_le_one_div_of_le (by positivity)
    have := Real.exp_le_exp.mpr (neg_le_neg h)
    linarith
  rw [vanillaReward_eq, vanillaReward_eq, neg_le_neg_iff]
  rw [Real.log_le_log_iff
    (by linarith [sigmoid_lt_one y, gailEps_pos])
    (by linarith [sigmoid_lt_one x, gailEps_pos])]
  linarith

theorem vanillaReward_lt_bound (x : ℝ) :
    vanillaReward x < -Real.log gailEps := by
  rw [vanillaReward_eq, neg_lt_neg_iff]
  apply Real.log_lt_log gailEps_pos
  linarith [sigmoid_lt_one x]

theorem sigmoid_tendsto_atTop :
    Filter.Tendsto sigmoid Filter.atTop (nhds 1) := by
  have h1 : Filter.Tendsto (fun x : ℝ => Real.exp (-x)) Filter.atTop (nhds 0) :=
    Real.tendsto_exp_atBot.comp Filter.tendsto_neg_atTop_atBot
  have h2 : Filter.Tendsto (fun x : ℝ => 1 + Real.exp (-x)) Filter.atTop
      (nhds (1 + 0)) := tendsto_const_nhds.add h1
  rw [add_zero] at h2
  have h3 := h2.inv₀ one_ne_zero
  rw [inv_one] at h3
  have hfun : sigmoid = fun x : ℝ => (1 + Real.exp (-x))⁻¹ := by
    funext x
    rw [sigmoid, one_div]
  rw [hfun]
  exact h3

theorem sigmoid_tendsto_atBot :
    Filter.Tendsto sigmoid Filter.atBot (nhds 0) := by
  have h1 : Filter.Tendsto (fun x : ℝ => Real.exp (-x)) Filter.atBot
      Filter.atTop := Real.tendsto_exp_atTop.comp Filter.tendsto_neg_atBot_atTop
  have h2 := Filter.tendsto_atTop_add_const_left Filter.atBot 1 h1
  have h3 := tendsto_inv_atTop_zero.comp h2
  have hfun : sigmoid = fun x : ℝ => (1 + Real.exp (-x))⁻¹ := by
    funext x
    rw [sigmoid, one_div]
  rw [hfun]
  exact h3

theorem vanillaReward_tendsto_atTop :
    Filter.Tendsto vanillaReward Filter.atTop (nhds (-Real.log gailEps)) := by
  have harg : Filter.Tendsto (fun x : ℝ => 1 - sigmoid x + gailEps)
      Filter.atTop (nhds (1 - 1 + gailEps)) :=
    (tendsto_const_nhds.sub sigmoid_tendsto_atTop).add_const gailEps
  rw [show (1:ℝ) - 1 + gailEps = gailEps by ring] at harg
  have hlog := (Real.continuousAt_log (ne_of_gt gailEps_pos)).tendsto.comp harg
  have hfun : vanillaReward = fun x : ℝ => -Real.log (1 - sigmoid x + gailEps) := by
    funext x
    exact vanillaReward_eq x
  rw [hfun]
  exact hlog.neg

theorem vanillaReward_tendsto_atBot :
    Filter.Tendsto vanillaReward Filter.atBot
      (nhds (-Real.log (1 + gailEps))) := by
  have harg : Filter.Tendsto (fun x : ℝ => 1 - sigmoid x + gailEps)
      Filter.atBot (nhds (1 - 0 + gailEps)) :=
    (tendsto_const_nhds.sub sigmoid_tendsto_atBot).add_const gailEps
  rw [show (1:ℝ) - 0 + gailEps = 1 + gailEps by ring] at harg
  have hlog := (Real.continuousAt_log
    (ne_of_gt (by linarith [gailEps_pos] : (0:ℝ) < 1 + gailEps))).tendsto.comp harg
  have hfun : vanillaReward = fun x : ℝ => -Real.log (1 - sigmoid x + gailEps) := by
    funext x
    exact vanillaReward_eq x
  rw [hfun]
  exact hlog.neg

theorem one_minus_sigmoid_lt (x : ℝ) : 1 - sigmoid x < Real.exp (-x) := by
  rw [sigmoid]
  have hd : (0:ℝ) < 1 + Real.exp (-x) := by positivity
  have heq : 1 - 1 / (1 + Real.exp (-x)) = Real.exp (-x) / (1 + Real.exp (-x)) := by
    field_simp
  rw [heq]
  exact div_lt_self (Real.exp_pos _) (by linarith [Real.exp_pos (-x)])

theorem exp_neg_one_gt : (0.36:ℝ) < Real.exp (-1) := by
  rw [Real.exp_neg]
  have h2 : (1:ℝ) / 2.7182818286 < 1 / Real.exp 1 :=
    one_div_lt_one_div_of_lt (Real.exp_pos 1) Real.exp_one_lt_d9
  calc (0.36:ℝ) < 1 / 2.7182818286 := by norm_num
    _ < 1 / Real.exp 1 := h2
    _ = (Real.exp 1)⁻¹ := one_div _

theorem exp_neg_two_lt : Real.exp (-2) < (0.14:ℝ) := by
  have h1 : (7.38:ℝ) < Real.exp 2 := by
    have h := Real.exp_one_gt_d9
    rw [show (2:ℝ) = 1 + 1 by norm_num, Real.exp_add]
    nlinarith
  rw [Real.exp_neg]
  have h2 : (1:ℝ) / Real.exp 2 < 1 / 7.38 :=
    one_div_lt_one_div_of_lt (by norm_num) h1
  calc (Real.exp 2)⁻¹ = 1 / Real.exp 2 := (one_div _).symm
    _ < 1 / 7.38 := h2
    _ < 0.14 := by norm_num

/-- C3 counterexample: at the strongly expert-favoring logit 100 the
vanilla reward exceeds 1: it is neither negative nor close to 0, and by
monotonicity the reward stays above this value for all larger logits,
so the vanilla reward does not approach 0 from below as the logit tends
to +∞. -/
theorem vanilla_reward_sign_cex : 1 < vanillaReward 100 := by
  have hpos : 0 < 1 - sigmoid 100 + gailEps := by
    linarith [sigmoid_lt_one 100, gailEps_pos]
  have hkey : 1 - sigmoid 100 + gailEps < Real.exp (-1) := by
    have h1 := one_minus_sigmoid_lt 100
    have h2 : Real.exp (-(100:ℝ)) ≤ Real.exp (-2) :=
      Real.exp_le_exp.mpr (by norm_num)
    have h5 : gailEps ≤ 0.01 := by norm_num [gailEps]
    linarith [exp_neg_two_lt, exp_neg_one_gt]
  have hlog : Real.log (1 - sigmoid 100 + gailEps) < -1 :=
    (Real.log_lt_iff_lt_exp hpos).mpr hkey
  rw [vanillaReward_eq]
  linarith

/-- C3 (amended): with the vanilla reward configuration, as the
discriminator logit tends to +∞ (maximally expert-favoring) the reward
tends to `-log ε ≈ 46` — large and positive, bounded above only by the
`ε = 1e-20` term — and as the logit tends to -∞ (maximally
policy-favoring) the reward tends to `-log(1+ε)`, a negative limit
within `ε` of 0: the reward approaches 0 from below on the
policy-favoring side, not the expert-favoring one, and is nowhere
unbounded below.  The reward is monotone in the logit. -/
theorem vanilla_reward_asymptotics :
    Filter.Tendsto vanillaReward Filter.atTop (nhds (-Real.log gailEps)) ∧
    Filter.Tendsto vanillaReward Filter.atBot
      (nhds (-Real.log (1 + gailEps))) ∧
    0 < -Real.log gailEps ∧
    -Real.log (1 + gailEps) < 0 ∧
    (∀ x : ℝ, vanillaReward x < -Real.log gailEps) ∧
    (∀ x y : ℝ, x ≤ y → vanillaReward x ≤ vanillaReward y) := by
  refine ⟨vanillaReward_tendsto_atTop, vanillaReward_tendsto_atBot, ?_, ?_,
    vanillaReward_lt_bound, fun x y h => vanillaReward_monotone h⟩
  · have := Real.log_neg gailEps_pos gailEps_lt_one
    linarith
  · have := Real.log_pos (by linarith [gailEps_pos] : (1:ℝ) < 1 + gailEps)
    linarith

/-- Witness for C3 (amended) at concrete logits. -/
theorem vanilla_reward_asymptotics_witness :
    vanillaReward 0 < -Real.log gailEps ∧ vanillaReward 0 ≤ vanillaReward 1 :=
  ⟨vanilla_reward_asymptotics.2.2.2.2.1 0,
    vanilla_reward_asymptotics.2.2.2.2.2 0 1 (by norm_num)⟩

/-! ## C4: the predict_reward formula -/

/-- C4: `predict_reward` computes `s = sigmoid(logit)` of the
discriminator logit for the normalized observation and the (possibly
discarded) action, and returns `-log(1-s+ε)` under the vanilla-reward
flag and `log(s+ε) - log(1-s+ε)` otherwise, with `ε = 1e-20`; under
state-only discrimination (`gail_no_action`) the action argument is
ignored. -/
theorem predict_reward_formula {O A : Type} (cfg : DiscrConfig)
    (normalize : O → O) (disc : O → Option A → ℝ) (ob : O) (ac : Option A) :
    (cfg.gail_vanilla_reward = true →
      predict_reward cfg normalize disc ob ac =
        -Real.log (1 - sigmoid (disc (normalize ob)
          (if cfg.gail_no_action then none else ac)) + gailEps)) ∧
    (cfg.gail_vanilla_reward = false →
      predict_reward cfg normalize disc ob ac =
        Real.log (sigmoid (disc (normalize ob)
            (if cfg.gail_no_action then none else ac)) + gailEps) -
          Real.log (1 - sigmoid (disc (normalize ob)
            (if cfg.gail_no_action then none else ac)) + gailEps)) ∧
    gailEps = 1 / 10 ^ 20 ∧
    (cfg.gail_no_action = true → ∀ ac2 : Option A,
      predict_reward cfg normalize disc ob ac =
        predict_reward cfg normalize disc ob ac2) := by
  refine ⟨?_, ?_, by norm_num [gailEps], ?_⟩
  · intro h
    simp [predict_reward, gailRewardOfLogit, h]
  · intro h
    simp [predict_reward, gailRewardOfLogit, h]
  · intro h ac2
    simp [predict_reward, h]

/-- Witness for C4 with both configuration flags set, at a concrete
observation. -/
theorem predict_reward_formula_witness :
    predict_reward (⟨true, true⟩ : DiscrConfig) (fun o : ℝ => o)
      (fun o _ => o) 0 (none : Option ℝ) =
      -Real.log (1 - sigmoid 0 + gailEps) := by
  have h := (predict_reward_formula (⟨true, true⟩ : DiscrConfig)
    (fun o : ℝ => o) (fun o _ => o) 0 (none : Option ℝ)).1 rfl
  simpa using h

/-! ## C7: TanhNormal mode -/

/-- C7: for every mean and positive standard deviation,
`TanhNormal.mode()` equals `tanh` of the mean clamped to `[-9, 9]`;
in particular it equals `tanh(mean)` for every mean in `[-9, 9]`. -/
theorem tanhnormal_mode_eq (mean std : ℝ) (hstd : 0 < std) :
    TanhNormal.mode mean std = Real.tanh (torchClamp mean (-9) 9) ∧
    (-9 ≤ mean → mean ≤ 9 → TanhNormal.mode mean std = Real.tanh mean) := by
  refine ⟨rfl, fun h1 h2 => ?_⟩
  have hc : torchClamp mean (-9) 9 = mean := by
    rw [torchClamp, max_eq_left h1, min_eq_left h2]
  show Real.tanh (torchClamp mean (-9) 9) = Real.tanh mean
  rw [hc]

/-- Witness for C7 at mean 1, std 1. -/
theorem tanhnormal_mode_eq_witness : TanhNormal.mode 1 1 = Real.tanh 1 :=
  (tanhnormal_mode_eq 1 1 (by norm_num)).2 (by norm_num) (by norm_num)

/-! ## C8: Categorical entropy scaling -/

/-- C8: for every logits vector, the overridden `Categorical.entropy()`
equals 10 times the entropy of the underlying base categorical
distribution with the same logits. -/
theorem categorical_entropy_scaled (logits : List ℝ) :
    categoricalEntropy logits = 10 * categoricalBaseEntropy logits := by
  rw [categoricalEntropy, mul_comm]

/-! ## C9: MixedDistribution sums -/

/-- C9: for every `MixedDistribution` over named sub-distributions and
every value mapping with a value for each key, `log_prob` is the sum
over keys of the sub-distribution's log-probability of the
corresponding value, and `entropy()` is the sum of the per-key
entropies; spelled out for the two-key mapping of the spec's test. -/
theorem mixed_distribution_sums {K V : Type} (md : MixedDistribution K V)
    (x : K → V) (ka kb : K) (da db : SimpleDist V) :
    MixedDistribution.logProb md x =
      (md.map fun kd => kd.2.logProbFn (x kd.1)).sum ∧
    MixedDistribution.entropyTotal md =
      (md.map fun kd => kd.2.entropyValue).sum ∧
    MixedDistribution.logProb [(ka, da), (kb, db)] x =
      da.logProbFn (x ka) + db.logProbFn (x kb) ∧
    MixedDistribution.entropyTotal ([(ka, da), (kb, db)] :
        MixedDistribution K V) =
      da.entropyValue + db.entropyValue := by
  refine ⟨rfl, rfl, ?_, ?_⟩ <;>
    simp [MixedDistribution.logProb, MixedDistribution.entropyTotal]

/-! ## C10: predict_reward is scalar-only -/

theorem tensorItem_isSome (xs : List ℝ) :
    (tensorItem xs).isSome = true ↔ xs.length = 1 := by
  cases xs with
  | nil => simp [tensorItem]
  | cons x t =>
    cases t with
    | nil => simp [tensorItem]
    | cons y t2 => simp [tensorItem]

/-- C10: `predict_reward` extracts the single element of the reward
tensor with `.item()`, so it produces a value exactly when the batch
holds one transition; on a batch of any other size (in particular more
than one transition) `.item()` is an error (`none`) rather than a
vector of rewards. -/
theorem predict_reward_scalar_only {O A : Type} (cfg : DiscrConfig)
    (normalize : O → O) (disc : O → Option A → ℝ) (obs : List O)
    (acs : List A) (n : ℕ) (ho : obs.length = n) (ha : acs.length = n) :
    (predict_reward_batch cfg normalize disc obs acs).isSome = true ↔
      n = 1 := by
  have hlen : (if cfg.gail_no_action then
        (obs.map normalize).map fun o => disc o none
      else ((obs.map normalize).zip acs).map fun p =>
        disc p.1 (some p.2)).length = n := by
    by_cases hna : cfg.gail_no_action = true <;>
      simp [hna, ho, ha]
  show (tensorItem _).isSome = true ↔ n = 1
  rw [tensorItem_isSome, List.length_map, hlen]

/-- Witness for C10: a batch of two transitions is an error. -/
theorem predict_reward_scalar_only_witness :
    ¬ ((predict_reward_batch (⟨true, false⟩ : DiscrConfig) (fun o : ℝ => o)
      (fun _ _ => (0:ℝ)) ([0, 1] : List ℝ)
      ([0, 1] : List ℝ)).isSome = true) := by
  intro hsome
  have h2 := (predict_reward_scalar_only (⟨true, false⟩ : DiscrConfig)
    (fun o : ℝ => o) (fun _ _ => (0:ℝ)) ([0, 1] : List ℝ)
    ([0, 1] : List ℝ) 2 rfl rfl).mp hsome
  omega

/-! ## C6: the old-actor snapshot is synced once per round and frozen -/

/-- C6: within one training round (`train()`), the old-actor snapshot is
synced from the current actor exactly once, at the start of the round:
after the whole round the old actor holds the actor parameters from
round start, every per-batch policy update and discriminator update
leaves the old actor untouched, and a policy update reads the old
actor only through the per-transition denominator log-probabilities of
the importance ratio — two old actors assigning the same
log-probabilities to the batch yield the same actor and critic
updates. -/
theorem old_actor_frozen_per_round {P C D O A E : Type} (cfg : PpoConfig)
    (ops : GailOps P C D O A E) (pbatches : List (List (Transition O A)))
    (dbatches : List (List (Transition O A) × E))
    (s : GailState P C D O A) :
    (train cfg ops pbatches dbatches s).old_actor = s.actor ∧
    (∀ (b : List (Transition O A)) (st : GailState P C D O A),
      (_update_policy cfg ops b st).old_actor = st.old_actor) ∧
    (∀ (pb : List (Transition O A)) (eb : E) (st : GailState P C D O A),
      (_update_discriminator ops pb eb st).old_actor = st.old_actor) ∧
    (∀ (b : List (Transition O A)) (st : GailState P C D O A) (oldA oldA' : P),
      (∀ tr ∈ b,
        (ops.act oldA (ops.normalize tr.ob) tr.ac_before_activation).1 =
          (ops.act oldA' (ops.normalize tr.ob) tr.ac_before_activation).1) →
      (_update_policy cfg ops b { st with old_actor := oldA }).actor =
        (_update_policy cfg ops b { st with old_actor := oldA' }).actor ∧
      (_update_policy cfg ops b { st with old_actor := oldA }).critic =
        (_update_policy cfg ops b { st with old_actor := oldA' }).critic) := by
  have hpol : ∀ (l : List (List (Transition O A))) (t : GailState P C D O A),
      (l.foldl (fun st b => _update_policy cfg ops b st) t).old_actor =
        t.old_actor := by
    intro l
    induction l with
    | nil => intro t; rfl
    | cons p l ih =>
      intro t
      rw [List.foldl_cons, ih]
      rfl
  have hdisc : ∀ (l : List (List (Transition O A) × E))
      (t : GailState P C D O A),
      (l.foldl (fun st pe => _update_discriminator ops pe.1 pe.2 st)
        t).old_actor = t.old_actor := by
    intro l
    induction l with
    | nil => intro t; rfl
    | cons p l ih =>
      intro t
      rw [List.foldl_cons, ih]
      rfl
  refine ⟨?_, fun b st => rfl, fun pb eb st => rfl, ?_⟩
  · show (train cfg ops pbatches dbatches s).old_actor = s.actor
    unfold train
    rw [hdisc, hpol]
  · intro b st oldA oldA' hact
    have hmap : (b.map fun tr =>
        (ops.act oldA (ops.normalize tr.ob) tr.ac_before_activation).1) =
        b.map fun tr =>
          (ops.act oldA' (ops.normalize tr.ob) tr.ac_before_activation).1 :=
      List.map_congr_left hact
    constructor
    · show ops.actorOptimStep st.actor _ = ops.actorOptimStep st.actor _
      rw [hmap]
    · rfl

/-- Witness for C6 at a fully concrete instantiation of the training
round: the old actor after the round equals the actor at round start. -/
theorem old_actor_frozen_per_round_witness :
    (train (⟨1, 1, 1⟩ : PpoConfig)
      (⟨id, fun p o a => (p + o + a, 0), fun c o => c * o,
        fun p l => p + l, fun c l => c + l, fun d _ _ => d⟩ :
        GailOps ℝ ℝ ℝ ℝ ℝ ℝ)
      [[⟨0, 0, 0, 0, 0⟩]] []
      (⟨1, 2, 3, 4, [], 0, 0, 0⟩ : GailState ℝ ℝ ℝ ℝ ℝ)).old_actor = 1 :=
  (old_actor_frozen_per_round _ _ _ _ _).1

end RobotLearning
